import Mathlib

/-!
Verification of the `common/time.rs` module of sentryshot: a shallow
embedding of its time and duration types (`UnixNano`, `Duration`,
`UnixH264`, `DurationH264`) and the `nano_to_timescale` conversion
routine, followed by theorems settling the specification's claims.

Machine `i64` values are embedded as `Int` together with an explicit
range predicate `inI64`; Rust's truncating `/` and `%` on `i64` are
`Int.tdiv` and `Int.tmod`; the overflow behaviour of the checked
operations is modelled through `wrap64`, two's-complement wrapping at
64 bits.
-/

namespace SentryTime

/-- Unit constants, from the source: `NANOSECOND = 1`, each next unit a
product of the previous one. -/
def NANOSECOND : Int := 1

def MICROSECOND : Int := NANOSECOND * 1000

def MILLISECOND : Int := MICROSECOND * 1000

def SECOND : Int := MILLISECOND * 1000

def MINUTE : Int := SECOND * 60

def HOUR : Int := MINUTE * 60

/-- `i64::MIN`. -/
def i64min : Int := -9223372036854775808

/-- `i64::MAX`. -/
def i64max : Int := 9223372036854775807

/-- The signed 64-bit range. -/
def inI64 (x : Int) : Prop := i64min ≤ x ∧ x ≤ i64max

instance (x : Int) : Decidable (inI64 x) :=
  inferInstanceAs (Decidable (i64min ≤ x ∧ x ≤ i64max))

/-- Two's-complement wrapping of an integer into the signed 64-bit range. -/
def wrap64 (x : Int) : Int :=
  (x + 9223372036854775808) % 18446744073709551616 - 9223372036854775808

/-- Rust `i64::checked_add`: the result is kept only when it equals its
64-bit wrap, i.e. when no overflow occurred. -/
def checked_add (a b : Int) : Option Int :=
  if wrap64 (a + b) = a + b then some (wrap64 (a + b)) else none

/-- Rust `i64::checked_sub`. -/
def checked_sub (a b : Int) : Option Int :=
  if wrap64 (a - b) = a - b then some (wrap64 (a - b)) else none

/-- Rust `i64::checked_mul`. -/
def checked_mul (a b : Int) : Option Int :=
  if wrap64 (a * b) = a * b then some (wrap64 (a * b)) else none

/-- Rust `i64::checked_div`: none on a zero divisor or when the
truncating quotient overflows the 64-bit range. -/
def checked_div (a b : Int) : Option Int :=
  if b = 0 then none
  else if wrap64 (a.tdiv b) = a.tdiv b then some (a.tdiv b) else none

/-- Rust `i64::checked_rem`: none on a zero divisor or when the
corresponding division overflows the 64-bit range. -/
def checked_rem (a b : Int) : Option Int :=
  if b = 0 then none
  else if wrap64 (a.tdiv b) = a.tdiv b then some (a.tmod b) else none

/-- Rust `as u32` cast of an `i64`: truncation to the low 32 bits. -/
def u32cast (x : Int) : Int := x % 4294967296

/-- Smallest `secs` accepted by chrono's
`NaiveDateTime::from_timestamp_opt` (timestamp of `-262144-01-01T00:00:00`,
the minimum naive date-time of the proleptic Gregorian calendar chrono
implements). -/
def CHRONO_MIN_SECS : Int := -8334632851200

/-- Largest `secs` accepted by chrono's
`NaiveDateTime::from_timestamp_opt` (timestamp of `262143-12-31T23:59:59`). -/
def CHRONO_MAX_SECS : Int := 8210298412799

/-- Model of chrono's `NaiveDateTime::from_timestamp_opt`: accepts a
seconds / nanoseconds pair iff the seconds are within the calendar's
representable range and the nanosecond part is below the leap-second
limit of two seconds; the resulting date-time is represented by the
accepted pair itself. -/
def from_timestamp_opt (secs nsecs : Int) : Option (Int × Int) :=
  if CHRONO_MIN_SECS ≤ secs ∧ secs ≤ CHRONO_MAX_SECS ∧
      0 ≤ nsecs ∧ nsecs < 2000000000 then
    some (secs, nsecs)
  else none

/-- Source `nano_to_timescale`: split into whole seconds and sub-second
remainder (truncating division) before scaling. -/
def nano_to_timescale (value timescale : Int) : Int :=
  let secs := value.tdiv SECOND
  let dec := value.tmod SECOND
  secs * timescale + (dec * timescale).tdiv SECOND

/-- Source `H264_TIMESCALE`: 90 kHz. -/
def H264_TIMESCALE : Int := 90000

def H264_SECOND : Int := H264_TIMESCALE

namespace UnixNano

/-- Source `UnixNano::add_duration`. -/
def add_duration (t d : Int) : Option Int := checked_add t d

/-- Source `UnixNano::sub_duration`. -/
def sub_duration (t d : Int) : Option Int := checked_sub t d

/-- Source `UnixNano::after`. -/
def after (t other : Int) : Bool := decide (t > other)

/-- Source `UnixNano::before`. -/
def before (t other : Int) : Bool := decide (t < other)

/-- Source `UnixNano::sub`. -/
def sub (t u : Int) : Option Int := checked_sub t u

/-- Source `UnixNano::as_chrono`: truncating split into seconds and
sub-second nanoseconds, the latter cast `as u32` with sign loss. -/
def as_chrono (t : Int) : Option (Int × Int) :=
  from_timestamp_opt (t.tdiv SECOND) (u32cast (t.tmod SECOND))

/-- Source `UnixNano::MAX`. -/
def MAX : Int := i64max

end UnixNano

namespace Duration

/-- Source `Duration::from_nanos`. -/
def from_nanos (nanos : Int) : Int := nanos

/-- Source `Duration::from_millis` (input a `u32`, multiplied as `i64`). -/
def from_millis (millis : Int) : Int := wrap64 (millis * MILLISECOND)

/-- Source `Duration::from_secs`. -/
def from_secs (secs : Int) : Int := wrap64 (secs * SECOND)

/-- Source `Duration::from_minutes`. -/
def from_minutes (minutes : Int) : Int := wrap64 (minutes * MINUTE)

/-- Source `Duration::from_hours`. -/
def from_hours (hours : Int) : Int := wrap64 (hours * HOUR)

/-- Source `Duration::as_std`: `u64::try_from` fails on a negative value;
the standard duration is a seconds / sub-second-nanoseconds pair. -/
def as_std (d : Int) : Option (Int × Int) :=
  if 0 ≤ d then some (d / 1000000000, d % 1000000000) else none

/-- Source `Duration::as_h264`. -/
def as_h264 (d : Int) : Int := nano_to_timescale d H264_TIMESCALE

end Duration

namespace UnixH264

/-- Source `UnixH264::checked_add_duration`. -/
def checked_add_duration (t d : Int) : Option Int := checked_add t d

/-- Source `UnixH264::checked_sub_duration`. -/
def checked_sub_duration (t d : Int) : Option Int := checked_sub t d

/-- Source `UnixH264::checked_sub`. -/
def checked_sub (t other : Int) : Option Int := SentryTime.checked_sub t other

/-- Source `UnixH264::as_nanos`: ticks split into whole seconds and
remainder ticks before scaling back to nanoseconds. -/
def as_nanos (t : Int) : Int :=
  (t.tdiv H264_TIMESCALE) * SECOND + ((t.tmod H264_TIMESCALE) * SECOND).tdiv H264_TIMESCALE

/-- Source `UnixH264::after`. -/
def after (t other : Int) : Bool := decide (t > other)

/-- Source `UnixH264::as_chrono`. -/
def as_chrono (t : Int) : Option (Int × Int) :=
  from_timestamp_opt ((as_nanos t).tdiv SECOND) (u32cast ((as_nanos t).tmod SECOND))

end UnixH264

namespace DurationH264

/-- Source `DurationH264::is_zero`. -/
def is_zero (d : Int) : Bool := decide (d = 0)

/-- Source `DurationH264::checked_add`. -/
def checked_add (a b : Int) : Option Int := SentryTime.checked_add a b

/-- Source `DurationH264::checked_sub`. -/
def checked_sub (a b : Int) : Option Int := SentryTime.checked_sub a b

/-- Source `DurationH264::checked_mul`. -/
def checked_mul (a b : Int) : Option Int := SentryTime.checked_mul a b

/-- Source `DurationH264::checked_div`. -/
def checked_div (a b : Int) : Option Int := SentryTime.checked_div a b

/-- Source `DurationH264::checked_rem`. -/
def checked_rem (a b : Int) : Option Int := SentryTime.checked_rem a b

/-- Source `DurationH264::as_nanos`: same split algorithm as
`UnixH264::as_nanos`. -/
def as_nanos (d : Int) : Int :=
  (d.tdiv H264_TIMESCALE) * SECOND + ((d.tmod H264_TIMESCALE) * SECOND).tdiv H264_TIMESCALE

/-- Source `DurationH264::as_millis`. -/
def as_millis (d : Int) : Int := (as_nanos d).tdiv MILLISECOND

end DurationH264

/-- The intermediate values of `nano_to_timescale v ts`:
`secs * ts`, `dec * ts`, `(dec * ts) / SECOND` and the final sum. -/
def nttIntermediatesInI64 (v ts : Int) : Prop :=
  inI64 (v.tdiv SECOND * ts) ∧
  inI64 (v.tmod SECOND * ts) ∧
  inI64 ((v.tmod SECOND * ts).tdiv SECOND) ∧
  inI64 (nano_to_timescale v ts)

instance (v ts : Int) : Decidable (nttIntermediatesInI64 v ts) :=
  inferInstanceAs (Decidable (_ ∧ _ ∧ _ ∧ _))

/-! Basic facts about the embedding. -/

lemma SECOND_def : SECOND = 1000000000 := by decide

lemma wrap64_eq_iff (x : Int) : wrap64 x = x ↔ inI64 x := by
  unfold wrap64 inI64 i64min i64max
  omega

lemma tmod_neg_dividend (a b : Int) : (-a).tmod b = -(a.tmod b) := by
  rw [Int.tmod_def, Int.tmod_def, Int.neg_tdiv]
  ring

lemma tmod_natAbs_lt (a : Int) {b : Int} (hb : 0 < b) :
    (a.tmod b).natAbs < b.natAbs := by
  rcases le_or_lt 0 a with ha | ha
  · have h1 := Int.tmod_nonneg b ha
    have h2 := Int.tmod_lt_of_pos a hb
    omega
  · have h1 : 0 ≤ (-a).tmod b := Int.tmod_nonneg b (by omega)
    have h2 : (-a).tmod b < b := Int.tmod_lt_of_pos (-a) hb
    have h3 : (-a).tmod b = -(a.tmod b) := tmod_neg_dividend a b
    omega

/-- Splitting a value at a positive modulus `c` before scaling by a
nonnegative `ts` computes the truncated quotient of the full product:
the heart of the `nano_to_timescale` algorithm. Nonnegative case. -/
lemma split_scale_nonneg (c ts v : Int) (hc : 0 < c) (hts : 0 ≤ ts) (hv : 0 ≤ v) :
    v.tdiv c * ts + (v.tmod c * ts).tdiv c = (v * ts).tdiv c := by
  have h1 : v.tdiv c = v / c := Int.tdiv_eq_ediv hv hc.le
  have h2 : v.tmod c = v % c := Int.tmod_eq_emod hv hc.le
  have h3 : (v % c * ts).tdiv c = v % c * ts / c :=
    Int.tdiv_eq_ediv (mul_nonneg (Int.emod_nonneg v hc.ne') hts) hc.le
  have h4 : (v * ts).tdiv c = v * ts / c :=
    Int.tdiv_eq_ediv (mul_nonneg hv hts) hc.le
  rw [h1, h2, h3, h4]
  have h5 : v * ts = v % c * ts + v / c * ts * c := by
    conv_lhs => rw [← Int.ediv_add_emod v c]
    ring
  rw [h5, Int.add_mul_ediv_right _ _ hc.ne']
  exact add_comm _ _

/-- The split-then-scale identity, both signs. -/
lemma split_scale (c ts v : Int) (hc : 0 < c) (hts : 0 ≤ ts) :
    v.tdiv c * ts + (v.tmod c * ts).tdiv c = (v * ts).tdiv c := by
  rcases le_or_lt 0 v with hv | hv
  · exact split_scale_nonneg c ts v hc hts hv
  · have H := split_scale_nonneg c ts (-v) hc hts (by omega)
    simp only [Int.neg_tdiv, tmod_neg_dividend, neg_mul] at H
    omega

lemma nano_to_timescale_eq (v ts : Int) (hts : 0 ≤ ts) :
    nano_to_timescale v ts = (v * ts).tdiv SECOND := by
  have hS : (0 : Int) < SECOND := by decide
  simpa [nano_to_timescale] using split_scale SECOND ts v hS hts

lemma durationH264_as_nanos_eq (t : Int) :
    DurationH264.as_nanos t = (t * SECOND).tdiv H264_TIMESCALE := by
  have h90 : (0 : Int) < H264_TIMESCALE := by decide
  have hS : (0 : Int) ≤ SECOND := by decide
  simpa [DurationH264.as_nanos] using split_scale H264_TIMESCALE SECOND t h90 hS

lemma unixH264_as_nanos_eq (t : Int) :
    UnixH264.as_nanos t = (t * SECOND).tdiv H264_TIMESCALE := by
  have h90 : (0 : Int) < H264_TIMESCALE := by decide
  have hS : (0 : Int) ≤ SECOND := by decide
  simpa [UnixH264.as_nanos] using split_scale H264_TIMESCALE SECOND t h90 hS

lemma natAbs_tdiv_second_le (x : Int) {m : Nat} (h : x.natAbs ≤ m) :
    (x.tdiv SECOND).natAbs ≤ m / 1000000000 := by
  have heq := Int.natAbs_tdiv x SECOND
  have hs : SECOND.natAbs = 1000000000 := by decide
  rw [hs] at heq
  have h2 : x.natAbs.div 1000000000 = x.natAbs / 1000000000 := rfl
  rw [h2] at heq
  omega

lemma inI64_of_natAbs {x : Int} (h : x.natAbs ≤ 9223372036854775807) :
    inI64 x := by
  simp only [inI64, i64min, i64max]
  omega

/-! Claim theorems. -/

/-- C1: for every i64 nanosecond value `v` and positive timescale `ts`
(intermediates in i64 range), `nano_to_timescale v ts` equals `v * ts / 10^9`
rounded toward zero, computed from the exact same-sign truncating split of
`v` into whole seconds and remainder nanoseconds, and is exact whenever
`v * ts` is a multiple of `10^9`. -/
theorem nano_to_timescale_correct (v ts : Int) (_hv : inI64 v) (hts : 0 < ts)
    (_hrange : nttIntermediatesInI64 v ts) :
    nano_to_timescale v ts = (v * ts).tdiv SECOND ∧
    SECOND * (v.tdiv SECOND) + v.tmod SECOND = v ∧
    (0 ≤ v → 0 ≤ v.tdiv SECOND ∧ 0 ≤ v.tmod SECOND) ∧
    (v ≤ 0 → v.tdiv SECOND ≤ 0 ∧ v.tmod SECOND ≤ 0) ∧
    (SECOND ∣ v * ts → nano_to_timescale v ts * SECOND = v * ts) := by
  refine ⟨nano_to_timescale_eq v ts hts.le, Int.tdiv_add_tmod v SECOND, ?_, ?_, ?_⟩
  · intro h0
    exact ⟨Int.tdiv_nonneg h0 (by decide), Int.tmod_nonneg SECOND h0⟩
  · intro h0
    have h1 : 0 ≤ (-v).tdiv SECOND := Int.tdiv_nonneg (by omega) (by decide)
    have h2 : 0 ≤ (-v).tmod SECOND := Int.tmod_nonneg SECOND (by omega)
    rw [Int.neg_tdiv] at h1
    rw [tmod_neg_dividend] at h2
    omega
  · intro hdvd
    rw [nano_to_timescale_eq v ts hts.le]
    exact Int.tdiv_mul_cancel hdvd

theorem nano_to_timescale_correct_w :
    nano_to_timescale 1000000000 90000 = ((1000000000 * 90000 : Int)).tdiv SECOND :=
  (nano_to_timescale_correct 1000000000 90000 (by decide) (by decide) (by decide)).1

/-- C2: for every i64 value `v` and every timescale `1 ≤ ts ≤ 10^6`, none of
the intermediates of `nano_to_timescale v ts` — `secs * ts`, `dec * ts`,
`(dec * ts) / SECOND`, or the final sum — leaves the signed 64-bit range. -/
theorem nano_to_timescale_no_overflow (v ts : Int) (hv : inI64 v)
    (hts1 : 1 ≤ ts) (hts2 : ts ≤ 1000000) :
    nttIntermediatesInI64 v ts := by
  have hva : v.natAbs ≤ 9223372036854775808 := by
    simp only [inI64, i64min, i64max] at hv
    omega
  have htsa : ts.natAbs ≤ 1000000 := by omega
  have hsecs : (v.tdiv SECOND).natAbs ≤ 9223372036 := by
    have := natAbs_tdiv_second_le v hva
    omega
  have hdec : (v.tmod SECOND).natAbs ≤ 999999999 := by
    have h1 := tmod_natAbs_lt v (show (0 : Int) < SECOND by decide)
    have hs : SECOND.natAbs = 1000000000 := by decide
    omega
  have hp1 : (v.tdiv SECOND * ts).natAbs ≤ 9223372036000000 := by
    rw [Int.natAbs_mul]
    calc (v.tdiv SECOND).natAbs * ts.natAbs ≤ 9223372036 * 1000000 :=
          Nat.mul_le_mul hsecs htsa
      _ = 9223372036000000 := by norm_num
  have hp2 : (v.tmod SECOND * ts).natAbs ≤ 999999999000000 := by
    rw [Int.natAbs_mul]
    calc (v.tmod SECOND).natAbs * ts.natAbs ≤ 999999999 * 1000000 :=
          Nat.mul_le_mul hdec htsa
      _ = 999999999000000 := by norm_num
  have hp3 : ((v.tmod SECOND * ts).tdiv SECOND).natAbs ≤ 999999 := by
    have := natAbs_tdiv_second_le (v.tmod SECOND * ts) hp2
    omega
  have hp4 : (nano_to_timescale v ts).natAbs ≤ 9223372036854775 := by
    rw [nano_to_timescale_eq v ts (by omega)]
    have hm : (v * ts).natAbs ≤ 9223372036854775808000000 := by
      rw [Int.natAbs_mul]
      calc v.natAbs * ts.natAbs ≤ 9223372036854775808 * 1000000 :=
            Nat.mul_le_mul hva htsa
        _ = 9223372036854775808000000 := by norm_num
    have := natAbs_tdiv_second_le (v * ts) hm
    omega
  exact ⟨inI64_of_natAbs (by omega), inI64_of_natAbs (by omega),
    inI64_of_natAbs (by omega), inI64_of_natAbs (by omega)⟩

theorem nano_to_timescale_no_overflow_w :
    nttIntermediatesInI64 100000000000000000 90000 :=
  nano_to_timescale_no_overflow 100000000000000000 90000
    (by decide) (by decide) (by decide)

lemma wrapCheck_eq (x : Int) :
    (if wrap64 x = x then some (wrap64 x) else none) =
      if inI64 x then some x else none := by
  by_cases h : inI64 x
  · rw [if_pos ((wrap64_eq_iff x).mpr h), (wrap64_eq_iff x).mpr h, if_pos h]
  · rw [if_neg (fun hc => h ((wrap64_eq_iff x).mp hc)), if_neg h]

lemma checked_add_eq (a b : Int) :
    checked_add a b = if inI64 (a + b) then some (a + b) else none :=
  wrapCheck_eq (a + b)

lemma checked_sub_eq (a b : Int) :
    checked_sub a b = if inI64 (a - b) then some (a - b) else none :=
  wrapCheck_eq (a - b)

lemma checked_mul_eq (a b : Int) :
    checked_mul a b = if inI64 (a * b) then some (a * b) else none :=
  wrapCheck_eq (a * b)

/-- A truncating i64 quotient stays in range except for the single
overflowing pair `i64::MIN / -1`. -/
lemma tdiv_inI64_iff {a b : Int} (ha : inI64 a) (hb : inI64 b) (hb0 : b ≠ 0) :
    inI64 (a.tdiv b) ↔ ¬(a = i64min ∧ b = -1) := by
  constructor
  · intro h hmin
    obtain ⟨ha1, hb1⟩ := hmin
    subst ha1
    subst hb1
    revert h
    decide
  · intro hne
    rcases eq_or_ne b 1 with h1 | h1
    · subst h1
      rw [Int.tdiv_one]
      exact ha
    rcases eq_or_ne b (-1) with hm1 | hm1
    · subst hm1
      have h2 : a.tdiv (-1) = -a := by
        rw [show (-1 : Int) = -(1 : Int) by norm_num, Int.tdiv_neg, Int.tdiv_one]
      rw [h2]
      have h3 : a ≠ i64min := fun h => hne ⟨h, rfl⟩
      simp only [inI64, i64min, i64max] at ha h3 ⊢
      omega
    · have hb2 : 2 ≤ b.natAbs := by omega
      have heq : (a.tdiv b).natAbs = a.natAbs / b.natAbs := Int.natAbs_tdiv a b
      have haa : a.natAbs ≤ 9223372036854775808 := by
        simp only [inI64, i64min, i64max] at ha
        omega
      apply inI64_of_natAbs
      rw [heq]
      calc a.natAbs / b.natAbs ≤ a.natAbs / 2 :=
            Nat.div_le_div_left hb2 (by norm_num)
        _ ≤ 9223372036854775807 := by omega

lemma checked_div_none_iff {a b : Int} (ha : inI64 a) (hb : inI64 b) :
    checked_div a b = none ↔ b = 0 ∨ (a = i64min ∧ b = -1) := by
  unfold checked_div
  by_cases hb0 : b = 0
  · simp [hb0]
  · rw [if_neg hb0]
    by_cases hov : wrap64 (a.tdiv b) = a.tdiv b
    · rw [if_pos hov]
      simp only [hb0, false_or]
      constructor
      · intro h
        cases h
      · intro hmin
        exact absurd hmin
          ((tdiv_inI64_iff ha hb hb0).mp ((wrap64_eq_iff _).mp hov))
    · rw [if_neg hov]
      have h1 : ¬inI64 (a.tdiv b) := fun h => hov ((wrap64_eq_iff _).mpr h)
      have h2 : a = i64min ∧ b = -1 := by
        by_contra hc
        exact h1 ((tdiv_inI64_iff ha hb hb0).mpr hc)
      simp [h2]

lemma checked_rem_none_iff {a b : Int} (ha : inI64 a) (hb : inI64 b) :
    checked_rem a b = none ↔ b = 0 ∨ (a = i64min ∧ b = -1) := by
  unfold checked_rem
  by_cases hb0 : b = 0
  · simp [hb0]
  · rw [if_neg hb0]
    by_cases hov : wrap64 (a.tdiv b) = a.tdiv b
    · rw [if_pos hov]
      simp only [hb0, false_or]
      constructor
      · intro h
        cases h
      · intro hmin
        exact absurd hmin
          ((tdiv_inI64_iff ha hb hb0).mp ((wrap64_eq_iff _).mp hov))
    · rw [if_neg hov]
      have h1 : ¬inI64 (a.tdiv b) := fun h => hov ((wrap64_eq_iff _).mpr h)
      have h2 : a = i64min ∧ b = -1 := by
        by_contra hc
        exact h1 ((tdiv_inI64_iff ha hb hb0).mpr hc)
      simp [h2]

lemma checked_div_some {a b q : Int} (h : checked_div a b = some q) :
    q = a.tdiv b := by
  unfold checked_div at h
  by_cases hb0 : b = 0
  · rw [if_pos hb0] at h
    cases h
  · rw [if_neg hb0] at h
    by_cases hov : wrap64 (a.tdiv b) = a.tdiv b
    · rw [if_pos hov] at h
      exact (Option.some.inj h).symm
    · rw [if_neg hov] at h
      cases h

lemma checked_rem_some {a b r : Int} (h : checked_rem a b = some r) :
    r = a.tmod b := by
  unfold checked_rem at h
  by_cases hb0 : b = 0
  · rw [if_pos hb0] at h
    cases h
  · rw [if_neg hb0] at h
    by_cases hov : wrap64 (a.tdiv b) = a.tdiv b
    · rw [if_pos hov] at h
      exact (Option.some.inj h).symm
    · rw [if_neg hov] at h
      cases h

lemma rt_tdiv_bound (v : Int) :
    (((v * 90000).tdiv 1000000000 * 1000000000).tdiv 90000 - v).natAbs ≤ 11111 := by
  rcases le_or_lt 0 v with hvp | hvn
  · have h1 : (v * 90000).tdiv 1000000000 = v * 90000 / 1000000000 :=
      Int.tdiv_eq_ediv (by omega) (by norm_num)
    rw [h1]
    have h2 : (v * 90000 / 1000000000 * 1000000000).tdiv 90000
        = v * 90000 / 1000000000 * 1000000000 / 90000 := by
      have h0 : 0 ≤ v * 90000 / 1000000000 :=
        Int.ediv_nonneg (by omega) (by norm_num)
      exact Int.tdiv_eq_ediv (by omega) (by norm_num)
    rw [h2]
    omega
  · have h1 : v * 90000 = -(-v * 90000) := by ring
    rw [h1, Int.neg_tdiv, neg_mul, Int.neg_tdiv]
    have h2 : (-v * 90000).tdiv 1000000000 = -v * 90000 / 1000000000 :=
      Int.tdiv_eq_ediv (by omega) (by norm_num)
    rw [h2]
    have h3 : (-v * 90000 / 1000000000 * 1000000000).tdiv 90000
        = -v * 90000 / 1000000000 * 1000000000 / 90000 := by
      have h0 : 0 ≤ -v * 90000 / 1000000000 :=
        Int.ediv_nonneg (by omega) (by norm_num)
      exact Int.tdiv_eq_ediv (by omega) (by norm_num)
    rw [h3]
    omega

/-- C3: converting any representable nanosecond value to 90 kHz ticks and
back differs from the original by at most 11,111 nanoseconds, and is exact
whenever the value is an exact multiple of the tick period (i.e. whenever
`10^9` divides `v * 90000`). -/
theorem as_h264_roundtrip (v : Int) (_hv : inI64 v) :
    (DurationH264.as_nanos (Duration.as_h264 v) - v).natAbs ≤ 11111 ∧
    (SECOND ∣ v * H264_TIMESCALE →
      DurationH264.as_nanos (Duration.as_h264 v) = v) := by
  have e1 : Duration.as_h264 v = (v * H264_TIMESCALE).tdiv SECOND := by
    unfold Duration.as_h264
    exact nano_to_timescale_eq v H264_TIMESCALE (by decide)
  have e2 : DurationH264.as_nanos (Duration.as_h264 v)
      = ((v * H264_TIMESCALE).tdiv SECOND * SECOND).tdiv H264_TIMESCALE := by
    rw [durationH264_as_nanos_eq, e1]
  constructor
  · rw [e2, SECOND_def, show H264_TIMESCALE = (90000 : Int) by decide]
    exact rt_tdiv_bound v
  · intro hdvd
    rw [e2, Int.tdiv_mul_cancel hdvd]
    exact Int.mul_tdiv_cancel v (by decide)

theorem as_h264_roundtrip_w :
    (DurationH264.as_nanos (Duration.as_h264 123456789) - 123456789).natAbs ≤ 11111 :=
  (as_h264_roundtrip 123456789 (by decide)).1

/-- C4: every checked operation returns none exactly when the true
mathematical result leaves the signed 64-bit range and some of the exact
result otherwise; checked division and remainder additionally return none
exactly on a zero divisor or on the overflowing pair `i64::MIN / -1`. -/
theorem checked_ops_exact (a b : Int) (ha : inI64 a) (hb : inI64 b) :
    UnixNano.add_duration a b = (if inI64 (a + b) then some (a + b) else none) ∧
    UnixNano.sub_duration a b = (if inI64 (a - b) then some (a - b) else none) ∧
    UnixNano.sub a b = (if inI64 (a - b) then some (a - b) else none) ∧
    UnixH264.checked_add_duration a b =
      (if inI64 (a + b) then some (a + b) else none) ∧
    UnixH264.checked_sub_duration a b =
      (if inI64 (a - b) then some (a - b) else none) ∧
    UnixH264.checked_sub a b = (if inI64 (a - b) then some (a - b) else none) ∧
    DurationH264.checked_add a b =
      (if inI64 (a + b) then some (a + b) else none) ∧
    DurationH264.checked_sub a b =
      (if inI64 (a - b) then some (a - b) else none) ∧
    DurationH264.checked_mul a b =
      (if inI64 (a * b) then some (a * b) else none) ∧
    (DurationH264.checked_div a b = none ↔ b = 0 ∨ (a = i64min ∧ b = -1)) ∧
    (DurationH264.checked_rem a b = none ↔ b = 0 ∨ (a = i64min ∧ b = -1)) ∧
    (∀ q, DurationH264.checked_div a b = some q → q = a.tdiv b) ∧
    (∀ r, DurationH264.checked_rem a b = some r → r = a.tmod b) :=
  ⟨checked_add_eq a b, checked_sub_eq a b, checked_sub_eq a b,
    checked_add_eq a b, checked_sub_eq a b, checked_sub_eq a b,
    checked_add_eq a b, checked_sub_eq a b, checked_mul_eq a b,
    checked_div_none_iff ha hb, checked_rem_none_iff ha hb,
    fun _ h => checked_div_some h, fun _ h => checked_rem_some h⟩

theorem checked_ops_exact_w : UnixNano.add_duration 5 3 = some 8 := by
  have h := (checked_ops_exact 5 3 (by decide) (by decide)).1
  rw [h]
  decide

/-- C5 counterexample: for the u32 input 4294967295 the product
`4294967295 * HOUR` does not fit in a signed 64-bit integer, and
`Duration::from_hours` does not return it — the multiplication wraps. -/
theorem from_hours_overflow_cex :
    ¬inI64 ((4294967295 : Int) * HOUR) ∧
    Duration.from_hours 4294967295 ≠ 4294967295 * HOUR := by
  decide

/-- C5 amended: `from_millis` and `from_secs` return exactly the input
times their unit constant, the product fitting in i64 for every u32 input;
`from_minutes` and `from_hours` return the exact product precisely when it
fits in i64, which fails for large u32 inputs. -/
theorem from_unit_constructors (n : Int) (h0 : 0 ≤ n) (h1 : n < 4294967296) :
    (Duration.from_millis n = n * MILLISECOND ∧ inI64 (n * MILLISECOND)) ∧
    (Duration.from_secs n = n * SECOND ∧ inI64 (n * SECOND)) ∧
    (inI64 (n * MINUTE) → Duration.from_minutes n = n * MINUTE) ∧
    (inI64 (n * HOUR) → Duration.from_hours n = n * HOUR) ∧
    (¬inI64 (n * MINUTE) → Duration.from_minutes n ≠ n * MINUTE) ∧
    (¬inI64 (n * HOUR) → Duration.from_hours n ≠ n * HOUR) := by
  have hmil : inI64 (n * MILLISECOND) := by
    simp only [inI64, i64min, i64max, MILLISECOND, MICROSECOND, NANOSECOND]
    omega
  have hsec : inI64 (n * SECOND) := by
    simp only [inI64, i64min, i64max, SECOND, MILLISECOND, MICROSECOND,
      NANOSECOND]
    omega
  refine ⟨⟨?_, hmil⟩, ⟨?_, hsec⟩, ?_, ?_, ?_, ?_⟩
  · exact (wrap64_eq_iff _).mpr hmil
  · exact (wrap64_eq_iff _).mpr hsec
  · intro h
    exact (wrap64_eq_iff _).mpr h
  · intro h
    exact (wrap64_eq_iff _).mpr h
  · intro h heq
    exact h ((wrap64_eq_iff _).mp heq)
  · intro h heq
    exact h ((wrap64_eq_iff _).mp heq)

theorem from_unit_constructors_w :
    Duration.from_hours 2562047 = 2562047 * HOUR :=
  (from_unit_constructors 2562047 (by decide) (by decide)).2.2.2.1 (by decide)

/-- C6: `after` and `before` are strict and irreflexive, mutually converse,
and consistent with the sign of checked subtraction; `UnixH264::after` is
likewise irreflexive. -/
theorem instant_ordering (a b : Int) :
    UnixNano.after a a = false ∧
    UnixNano.before a a = false ∧
    UnixNano.after a b = UnixNano.before b a ∧
    (∀ d, UnixNano.sub a b = some d →
      ((UnixNano.after a b = true ↔ 0 < d) ∧
        (UnixNano.before a b = true ↔ d < 0))) ∧
    UnixH264.after a a = false := by
  refine ⟨?_, ?_, rfl, ?_, ?_⟩
  · simp [UnixNano.after]
  · simp [UnixNano.before]
  · intro d hd
    have hd' : d = a - b := by
      unfold UnixNano.sub SentryTime.checked_sub at hd
      by_cases h : wrap64 (a - b) = a - b
      · rw [if_pos h] at hd
        rw [← Option.some.inj hd, h]
      · rw [if_neg h] at hd
        cases hd
    subst hd'
    constructor
    · simp only [UnixNano.after, decide_eq_true_eq]
      omega
    · simp only [UnixNano.before, decide_eq_true_eq]
      omega
  · simp [UnixH264.after]

theorem instant_ordering_w : UnixNano.after 2 1 = true ↔ 0 < (1 : Int) :=
  ((instant_ordering 2 1).2.2.2.1 1 (by decide)).1

/-- C7: `Duration::as_std` returns none exactly when the duration is
negative, and otherwise some standard-duration pair carrying exactly the
same number of nanoseconds. -/
theorem as_std_correct (d : Int) (_hd : inI64 d) :
    (Duration.as_std d = none ↔ d < 0) ∧
    (∀ p, Duration.as_std d = some p →
      p.1 * SECOND + p.2 = d ∧ 0 ≤ p.2 ∧ p.2 < SECOND) := by
  unfold Duration.as_std
  constructor
  · by_cases h : 0 ≤ d
    · rw [if_pos h]
      constructor
      · intro hc
        cases hc
      · intro hneg
        omega
    · rw [if_neg h]
      exact iff_of_true rfl (by omega)
  · intro p hp
    by_cases h : 0 ≤ d
    · rw [if_pos h] at hp
      have hp' := Option.some.inj hp
      subst hp'
      simp only [SECOND_def]
      omega
    · rw [if_neg h] at hp
      cases hp

theorem as_std_correct_w : Duration.as_std (-1) = none :=
  (as_std_correct (-1) (by decide)).1.mpr (by decide)

/-- C8: `nano_to_timescale` with timescale 90000 maps the fixture inputs
`10^5, 10^8, 10^11, 10^14, 10^15, 10^16, 10^17` exactly to
`9, 9000, 9*10^6, 9*10^9, 9*10^10, 9*10^11, 9*10^12`, with every
intermediate of each computation inside the i64 range. -/
theorem nano_to_timescale_fixture :
    (nano_to_timescale 100000 90000 = 9 ∧
      nttIntermediatesInI64 100000 90000) ∧
    (nano_to_timescale 100000000 90000 = 9000 ∧
      nttIntermediatesInI64 100000000 90000) ∧
    (nano_to_timescale 100000000000 90000 = 9000000 ∧
      nttIntermediatesInI64 100000000000 90000) ∧
    (nano_to_timescale 100000000000000 90000 = 9000000000 ∧
      nttIntermediatesInI64 100000000000000 90000) ∧
    (nano_to_timescale 1000000000000000 90000 = 90000000000 ∧
      nttIntermediatesInI64 1000000000000000 90000) ∧
    (nano_to_timescale 10000000000000000 90000 = 900000000000 ∧
      nttIntermediatesInI64 10000000000000000 90000) ∧
    (nano_to_timescale 100000000000000000 90000 = 9000000000000 ∧
      nttIntermediatesInI64 100000000000000000 90000) := by
  decide

/-- C9: a 5-minute span is exactly `300 * 10^9` nanoseconds, converts with
`as_h264` to exactly 27,000,000 ticks, and converts back with `as_nanos`
to exactly `300 * 10^9` nanoseconds. -/
theorem five_minute_roundtrip :
    Duration.from_minutes 5 = 300 * 1000000000 ∧
    Duration.as_h264 (Duration.from_minutes 5) = 27000000 ∧
    DurationH264.as_nanos (Duration.as_h264 (Duration.from_minutes 5)) =
      300 * 1000000000 := by
  decide

lemma tmod_neg_range (x : Int) (hx : x < 0) :
    -SECOND < x.tmod SECOND ∧ x.tmod SECOND ≤ 0 := by
  have h1 : 0 ≤ (-x).tmod SECOND := Int.tmod_nonneg SECOND (by omega)
  have h2 : (-x).tmod SECOND < SECOND := Int.tmod_lt_of_pos (-x) (by decide)
  have h3 := tmod_neg_dividend x SECOND
  constructor <;> omega

lemma cast_subsec_ge (x : Int) (hlo : -SECOND < x) (hhi : x ≤ 0) (hne : x ≠ 0) :
    2000000000 ≤ u32cast x := by
  unfold u32cast
  rw [SECOND_def] at hlo
  omega

lemma fto_none_of_big {secs nsecs : Int} (h : 2000000000 ≤ nsecs) :
    from_timestamp_opt secs nsecs = none := by
  unfold from_timestamp_opt
  rw [if_neg]
  intro hc
  exact absurd hc.2.2.2 (by omega)

/-- C10: a negative instant with a nonzero sub-second remainder is rejected
by `as_chrono`: the negative remainder is cast to `u32` with sign loss,
yielding a nanosecond argument of at least `2 * 10^9` that the calendar
conversion refuses — although the instant itself (split with floor
division) is within the calendar's representable range. The same holds for
`UnixH264::as_chrono` when its nanosecond conversion is negative with a
nonzero remainder. -/
theorem as_chrono_negative_subsecond (v t : Int) (hv : inI64 v) (hneg : v < 0)
    (hrem : v.tmod SECOND ≠ 0) (ht : UnixH264.as_nanos t < 0)
    (htrem : (UnixH264.as_nanos t).tmod SECOND ≠ 0) :
    UnixNano.as_chrono v = none ∧
    2000000000 ≤ u32cast (v.tmod SECOND) ∧
    from_timestamp_opt (v / SECOND) (v % SECOND) ≠ none ∧
    UnixH264.as_chrono t = none := by
  have hr := tmod_neg_range v hneg
  have hcast : 2000000000 ≤ u32cast (v.tmod SECOND) :=
    cast_subsec_ge _ hr.1 hr.2 hrem
  have hr2 := tmod_neg_range (UnixH264.as_nanos t) ht
  have hcast2 : 2000000000 ≤ u32cast ((UnixH264.as_nanos t).tmod SECOND) :=
    cast_subsec_ge _ hr2.1 hr2.2 htrem
  refine ⟨fto_none_of_big hcast, hcast, ?_, fto_none_of_big hcast2⟩
  have hs : from_timestamp_opt (v / SECOND) (v % SECOND) =
      some (v / SECOND, v % SECOND) := by
    unfold from_timestamp_opt
    rw [if_pos]
    simp only [inI64, i64min, i64max] at hv
    rw [SECOND_def]
    simp only [CHRONO_MIN_SECS, CHRONO_MAX_SECS]
    omega
  rw [hs]
  exact Option.some_ne_none _

theorem as_chrono_negative_subsecond_w :
    UnixNano.as_chrono (-1500000000) = none :=
  (as_chrono_negative_subsecond (-1500000000) (-1) (by decide) (by decide)
    (by decide) (by decide) (by decide)).1

end SentryTime
